import Mathlib

/-!
Shallow embedding of the `just_in_time_game` solver (`src/main.rs`) and proofs
about it.  The Rust program enumerates all ways to place a fixed set of pieces
on a rectangular field and reports the placements maximising the residual
score of the still-free cells.

Modelling conventions, chosen once and used throughout:

* Vectors (`Vec<T>`) become `List`, indexed with `List.getD` at the row-major
  index `x + y * width` exactly as the source does.  All theorems that need
  in-bounds indexing carry the well-formedness hypothesis
  `field.length = width * height`, which every value built by the program's
  parsers satisfies; under it every read and write of the source is in bounds.
* Machine integers (`u8`, `usize`) become `Nat`.  Where the source performs
  arithmetic that can overflow or underflow we model the checked semantics of
  a debug build (`cargo run`): the unsigned subtractions
  `field.height - piece.height` / `field.width - piece.width` in
  `PlaceIterator::next` and the `u8` additions in `Field::count` panic on
  overflow, which we render as `Except.error ()`.  Fallible operations
  (parsing, panics) therefore return `Except Unit _`.
* A nested `for` loop that writes a batch of cells into a mutable vector is
  rendered as a left fold of `List.set` over the list of writes the loop
  performs, in the loop's own order (`writeCells` below); the loop ranges are
  `List.range`/`gridCoords` with the outer loop variable first.
* The lazy `PlaceIterator` is embedded as the full sequence of fields it
  yields (a panic anywhere in the iteration makes the whole sequence an
  error; in the one reachable panic case the panic happens before the first
  yield, so nothing is lost by collecting).
-/

namespace Jit

/-- `PieceState` from the source: a cell of a piece is occupied or free. -/
inductive PieceState where
  | Occupied
  | Free
deriving DecidableEq

/-- `Piece` from the source: identifier, bounding box, and the row-major cell
vector (`field[x + y * width]`). -/
structure Piece where
  id : Nat
  width : Nat
  height : Nat
  field : List PieceState
deriving DecidableEq

/-- `FieldState` from the source: blocked, occupied by the piece with the
given identifier, or free carrying a score. -/
inductive FieldState where
  | Blocked
  | Occupied (id : Nat)
  | Free (score : Nat)
deriving DecidableEq

/-- `Field` from the source: bounding box and row-major cell vector. -/
structure Field where
  width : Nat
  height : Nat
  field : List FieldState
deriving DecidableEq

/-- Well-formedness of a piece: the cell vector has exactly `width * height`
entries.  `Piece::from_str` only builds such pieces, and every indexing
operation of the source is in bounds exactly under this hypothesis. -/
def Piece.WF (p : Piece) : Prop := p.field.length = p.width * p.height

/-- Well-formedness of a field, as for `Piece.WF`. -/
def Field.WF (f : Field) : Prop := f.field.length = f.width * f.height

/-- The sequence of loop positions of `for a in 0..w { for b in 0..h { ... } }`,
outer variable first. -/
def gridCoords (w h : Nat) : List (Nat × Nat) :=
  (List.range w).flatMap (fun a => (List.range h).map (fun b => (a, b)))

/-- A batch of in-place vector writes `v[i] = x`, performed left to right:
the rendering of a source loop that stores into a mutable `Vec`. -/
def writeCells {α : Type} (ws : List (Nat × α)) (init : List α) : List α :=
  ws.foldl (fun acc w => acc.set w.1 w.2) init

/-- `Piece::flipped_horizontally`: row `y` of the copy is row `height-y-1` of
the source (`t.field[x + y*w] = self.field[x + (h-y-1)*w]` for all
`x < w, y < h`, written in the source's loop order). -/
def Piece.flipped_horizontally (p : Piece) : Piece :=
  { p with
    field := writeCells
      ((gridCoords p.width p.height).map (fun c =>
        (c.1 + c.2 * p.width,
         p.field.getD (c.1 + (p.height - c.2 - 1) * p.width) PieceState.Free)))
      p.field }

/-- `Piece::flipped_vertically`: column `x` of the copy is column `width-x-1`
of the source. -/
def Piece.flipped_vertically (p : Piece) : Piece :=
  { p with
    field := writeCells
      ((gridCoords p.width p.height).map (fun c =>
        (c.1 + c.2 * p.width,
         p.field.getD ((p.width - c.1 - 1) + c.2 * p.width) PieceState.Free)))
      p.field }

/-- `Piece::transposed`: swapped bounding box, cells written into a fresh
all-`Free` vector with `t.field[x + y*t.width] = self.field[y + x*self.width]`
for `x < t.width = height, y < t.height = width`. -/
def Piece.transposed (p : Piece) : Piece :=
  { id := p.id
    width := p.height
    height := p.width
    field := writeCells
      ((gridCoords p.height p.width).map (fun c =>
        (c.1 + c.2 * p.height,
         p.field.getD (c.2 + c.1 * p.width) PieceState.Free)))
      (List.replicate (p.width * p.height) PieceState.Free) }

/-- `Piece::all_variants`: the eight flip/transpose images collected into a
`HashSet` keyed by structural equality.  The set is embedded as a list in the
source's insertion order, deduplicated by structural equality; the hash-set
iteration order is not contractually specified, so fixing this order is the
only determinisation the embedding makes. -/
def Piece.all_variants (p : Piece) : List Piece :=
  [p.flipped_horizontally,
   p.flipped_vertically.flipped_horizontally,
   p.flipped_vertically,
   p,
   p.transposed.flipped_horizontally,
   p.transposed.flipped_vertically.flipped_horizontally,
   p.transposed.flipped_vertically,
   p.transposed].dedup

/-- Number of occupied cells of a piece. -/
def occCount (p : Piece) : Nat :=
  p.field.countP (fun c => decide (c = PieceState.Occupied))

/-- The contribution of one field cell to `Field::count`: the score of a
`Free` cell, `0` otherwise (the `match` inside the source's fold). -/
def cellScore (c : FieldState) : Nat :=
  match c with
  | FieldState.Free score => score
  | _ => 0

/-- The mathematical sum of the free scores of a cell vector (specification
side; the source computes it in `u8`). -/
def sumScores (l : List FieldState) : Nat :=
  (l.map cellScore).sum

/-- `Field::count`: fold of `u8` additions of the free scores.  A debug-build
`u8` addition panics when the sum leaves `0..=255`; the panic is modelled as
`Except.error ()`. -/
def Field.count (f : Field) : Except Unit Nat :=
  f.field.foldlM
    (fun acc c =>
      if acc + cellScore c ≤ 255 then Except.ok (acc + cellScore c)
      else Except.error ())
    0

/-- The inner double loop of `PlaceIterator::next` that stamps a piece onto a
clone of the field cells at anchor `(ax, ay)`: walking the piece cells in the
source's order, every `Occupied` piece cell requires the corresponding field
cell `(ax+px) + (ay+py)*fw` to be `Free` and overwrites it with
`Occupied(piece.id)`; any other field state aborts the whole anchor
(`continue 'main`), modelled as `none`. -/
def stampCells (p : Piece) (fw ax ay : Nat) :
    List (Nat × Nat) → List FieldState → Option (List FieldState)
  | [], acc => some acc
  | c :: rest, acc =>
    if p.field.getD (c.1 + c.2 * p.width) PieceState.Free = PieceState.Occupied then
      match acc.getD ((ax + c.1) + (ay + c.2) * fw) FieldState.Blocked with
      | FieldState.Free _ =>
        stampCells p fw ax ay rest
          (acc.set ((ax + c.1) + (ay + c.2) * fw) (FieldState.Occupied p.id))
      | _ => none
    else
      stampCells p fw ax ay rest acc

/-- One attempted placement of `PlaceIterator::next` at anchor `(ax, ay)`:
either the stamped copy of the field or `none` when the anchor is rejected. -/
def tryPlace (f : Field) (p : Piece) (ax ay : Nat) : Option Field :=
  match stampCells p f.width ax ay (gridCoords p.width p.height) f.field with
  | some cells => some { f with field := cells }
  | none => none

/-- The anchor positions `PlaceIterator` visits when the piece fits, in its
order: `x` from `0` to `width - piece.width` innermost, `y` outermost up to
`height - piece.height`. -/
def anchors (f : Field) (p : Piece) : List (Nat × Nat) :=
  (List.range (f.height - p.height + 1)).flatMap (fun y =>
    (List.range (f.width - p.width + 1)).map (fun x => (x, y)))

/-- `Field::place_iter` collected into the sequence of fields the iterator
yields.  The source's first `next` call evaluates the `usize` subtractions
`field.height - piece.height` (and, after `x += 1`, `field.width -
piece.width`); when the piece exceeds the field either subtraction underflows
and a debug build panics before anything is yielded — modelled as
`Except.error ()`.  Otherwise the loop tries every anchor in row-major order
and yields the successfully stamped copies. -/
def place_iter (f : Field) (p : Piece) : Except Unit (List Field) :=
  if f.height < p.height then Except.error ()
  else if f.width < p.width then Except.error ()
  else Except.ok ((anchors f p).filterMap (fun a => tryPlace f p a.1 a.2))

/-- The loop body of `Solution::solve` over the orientation set `top` of the
current piece: for every orientation, for every placement, either record the
placement (when no piece remains) or continue with `recur`, appending in
discovery order.  A panic anywhere (from `place_iter` or the recursive call)
aborts the whole run. -/
def solveBody (recur : Field → Except Unit (List Field)) (restEmpty : Bool)
    (top : List Piece) (state : Field) : Except Unit (List Field) :=
  top.foldlM
    (fun acc piece => do
      let placements ← place_iter state piece
      placements.foldlM
        (fun acc2 pl =>
          if restEmpty then Except.ok (acc2 ++ [pl])
          else do
            let s ← recur pl
            Except.ok (acc2 ++ s))
        acc)
    []

/-- `Solution::solve`: `assert!(!remaining_pieces.is_empty())` panics on an
empty list (modelled as `Except.error ()`); otherwise the head orientation
set is processed by `solveBody`, recursing on the tail. -/
def solve : List (List Piece) → Field → Except Unit (List Field)
  | [] => fun _ => Except.error ()
  | top :: rest => fun state => solveBody (solve rest) rest.isEmpty top state

/-- `solve` with an explicit recursion-depth budget: identical to `solve`
except that it also gives up when `fuel` runs out.  Used to state that the
recursion depth of the solver is bounded by the number of remaining pieces. -/
def solveFuel : Nat → List (List Piece) → Field → Except Unit (List Field)
  | 0, _ => fun _ => Except.error ()
  | _ + 1, [] => fun _ => Except.error ()
  | fuel + 1, top :: rest => fun state =>
    solveBody (solveFuel fuel rest) rest.isEmpty top state

/-- The `Solution` struct: start field, per-piece orientation sets, and the
complete configurations found by the search. -/
structure Solution where
  start : Field
  pieces : List (List Piece)
  solutions : List Field
deriving DecidableEq

/-- `Solution::new`: expand each piece into its orientation set, run the
solver and record everything. -/
def Solution.new (start : Field) (pieces : List Piece) : Except Unit Solution := do
  let pcs := pieces.map Piece.all_variants
  let sols ← solve pcs start
  Except.ok { start := start, pieces := pcs, solutions := sols }

/-- `Solution::highest_score`:
`self.solutions.iter().map(|f| f.count()).max().unwrap_or(0)`; a `count`
panic propagates. -/
def Solution.highest_score (s : Solution) : Except Unit Nat := do
  let cs ← s.solutions.mapM Field.count
  Except.ok (cs.max?.getD 0)

/-- The `filter(|field| field.count() == highest_score)` loop of
`Solution::best_solutions`, keeping discovery order. -/
def filterCount : List Field → Nat → Except Unit (List Field)
  | [], _ => Except.ok []
  | f :: fs, h => do
    let c ← f.count
    let rest ← filterCount fs h
    Except.ok (if c = h then f :: rest else rest)

/-- `Solution::best_solutions`: every recorded configuration whose count
equals the highest score. -/
def Solution.best_solutions (s : Solution) : Except Unit (List Field) := do
  let highest ← s.highest_score
  filterCount s.solutions highest

/-- Rust's `str::split_terminator('\n')` on a character list: split at every
newline, with a trailing newline not producing a final empty segment, and the
empty input producing no segments. -/
def splitT (s : List Char) : List (List Char) :=
  match s with
  | [] => []
  | _ =>
    s.foldr
      (fun c acc =>
        if c = '\n' then [] :: acc
        else
          match acc with
          | [] => [[c]]
          | l :: ls => (c :: l) :: ls)
      []

/-- `width = lines.iter().fold(0, |a, b| a.max(b.len()))` from
`Field::from_str`. -/
def maxLineWidth (lines : List (List Char)) : Nat :=
  lines.foldl (fun a b => a.max b.length) 0

/-- The `match` on one character of a field line in `Field::from_str`:
space is `Blocked`, `-` is `Free(0)`, a digit `1..=9` is `Free(digit)`,
anything else is the `"unexpected character"` error. -/
def parseChar (c : Char) : Except Unit FieldState :=
  if c = ' ' then Except.ok FieldState.Blocked
  else if c = '-' then Except.ok (FieldState.Free 0)
  else if '1' ≤ c ∧ c ≤ '9' then
    Except.ok (FieldState.Free (c.toNat - Char.toNat '1' + 1))
  else Except.error ()

/-- The inner `for element in line.chars().enumerate()` loop of
`Field::from_str`, producing the writes `(row*width + col, state)` for one
line (the source writes them into the vector as it goes; an error aborts the
whole parse, so collecting the writes first is observationally the same). -/
def fillLine (w row : Nat) : Nat → List Char → Except Unit (List (Nat × FieldState))
  | _, [] => Except.ok []
  | col, c :: cs => do
    let st ← parseChar c
    let rest ← fillLine w row (col + 1) cs
    Except.ok ((row * w + col, st) :: rest)

/-- The outer `for line in lines.iter().enumerate()` loop of
`Field::from_str`. -/
def fillLines (w : Nat) : Nat → List (List Char) → Except Unit (List (Nat × FieldState))
  | _, [] => Except.ok []
  | row, line :: ls => do
    let a ← fillLine w row 0 line
    let b ← fillLines w (row + 1) ls
    Except.ok (a ++ b)

/-- `Field::from_str`: split the input at newlines, take the longest line as
the width, start from an all-`Blocked` vector of `width * height` cells and
overwrite the cell under every character of every line. -/
def Field.fromStr (s : List Char) : Except Unit Field := do
  let lines := splitT s
  let width := maxLineWidth lines
  let ws ← fillLines width 0 lines
  Except.ok
    { width := width
      height := lines.length
      field := writeCells ws (List.replicate (width * lines.length) FieldState.Blocked) }

/-- The 2-by-2 all-`Free(1)` field of the spec's first end-to-end example. -/
def exField2x2 : Field :=
  { width := 2, height := 2
    field := [FieldState.Free 1, FieldState.Free 1, FieldState.Free 1, FieldState.Free 1] }

/-- The single-cell piece `X` with identifier 0. -/
def exPiece1x1 : Piece :=
  { id := 0, width := 1, height := 1, field := [PieceState.Occupied] }

/-- A 1-by-1 field with one worthless free cell. -/
def exField1x1 : Field :=
  { width := 1, height := 1, field := [FieldState.Free 0] }

/-- A 1-by-2 piece (taller than `exField1x1`), both cells occupied. -/
def exPiece1x2 : Piece :=
  { id := 0, width := 1, height := 2, field := [PieceState.Occupied, PieceState.Occupied] }

/-- A 29-cell field whose free scores sum to `261 > 255`, overflowing the
`u8` accumulator of `Field::count`. -/
def exFieldBig : Field :=
  { width := 29, height := 1, field := List.replicate 29 (FieldState.Free 9) }

/-- A 2-by-1 piece with one occupied cell, used as a concrete witness input. -/
def exPiece2x1 : Piece :=
  { id := 0, width := 2, height := 1, field := [PieceState.Occupied, PieceState.Free] }

/-- The four complete configurations of the 2-by-2 example, in the solver's
discovery order (anchors row-major). -/
def exSolutions2x2 : List Field :=
  [{ width := 2, height := 2
     field := [FieldState.Occupied 0, FieldState.Free 1, FieldState.Free 1, FieldState.Free 1] },
   { width := 2, height := 2
     field := [FieldState.Free 1, FieldState.Occupied 0, FieldState.Free 1, FieldState.Free 1] },
   { width := 2, height := 2
     field := [FieldState.Free 1, FieldState.Free 1, FieldState.Occupied 0, FieldState.Free 1] },
   { width := 2, height := 2
     field := [FieldState.Free 1, FieldState.Free 1, FieldState.Free 1, FieldState.Occupied 0] }]

/-- The character list `"- \n--9"`: two lines, the first shorter than the
second, exercising the `Blocked` padding of `Field::from_str`. -/
def exInputPadded : List Char := ['-', ' ', '\n', '-', '-', '9']

/-- The field `Field::from_str` produces for `exInputPadded`. -/
def exFieldPadded : Field :=
  { width := 3, height := 2
    field := [FieldState.Free 0, FieldState.Blocked, FieldState.Blocked,
              FieldState.Free 0, FieldState.Free 0, FieldState.Free 9] }

/-! ### Basic list lemmas -/

theorem getD_set_self {α : Type} (d : α) :
    ∀ (l : List α) (i : Nat) (a : α), i < l.length → (l.set i a).getD i d = a
  | [], i, _, h => absurd h (by simp)
  | _ :: _, 0, a, _ => by simp
  | x :: xs, i + 1, a, h => by
    simpa using getD_set_self d xs i a (by simpa using h)

theorem getD_set_ne {α : Type} (d : α) :
    ∀ (l : List α) (i j : Nat) (a : α), i ≠ j → (l.set i a).getD j d = l.getD j d
  | [], _, _, _, _ => by simp
  | _ :: _, 0, 0, _, h => absurd rfl h
  | _ :: _, 0, _ + 1, _, _ => by simp
  | _ :: _, _ + 1, 0, _, _ => by simp
  | x :: xs, i + 1, j + 1, a, h => by
    simpa using getD_set_ne d xs i j a (fun hij => h (by omega))

theorem list_ext_getD {α : Type} (d : α) :
    ∀ (l₁ l₂ : List α), l₁.length = l₂.length →
      (∀ i, i < l₁.length → l₁.getD i d = l₂.getD i d) → l₁ = l₂
  | [], [], _, _ => rfl
  | [], _ :: _, h, _ => by simp at h
  | _ :: _, [], h, _ => by simp at h
  | x :: xs, y :: ys, h, hpt => by
    have hx : x = y := by simpa using hpt 0 (by simp)
    have : xs = ys :=
      list_ext_getD d xs ys (by simpa using h)
        (fun i hi => by simpa using hpt (i + 1) (by simpa using hi))
    rw [hx, this]

theorem getD_replicate_self {α : Type} (d a : α) :
    ∀ (n i : Nat), i < n → (List.replicate n a).getD i d = a
  | 0, _, h => absurd h (by simp)
  | _ + 1, 0, _ => by simp
  | n + 1, i + 1, h => by
    simpa [List.replicate] using getD_replicate_self d a n i (by omega)

/-! ### Lemmas about `writeCells` -/

theorem length_writeCells {α : Type} :
    ∀ (ws : List (Nat × α)) (init : List α), (writeCells ws init).length = init.length
  | [], _ => rfl
  | w :: ws, init => by
    simpa [writeCells, List.foldl_cons] using
      (length_writeCells ws (init.set w.1 w.2)).trans (by simp)

theorem writeCells_cons {α : Type} (w : Nat × α) (ws : List (Nat × α)) (init : List α) :
    writeCells (w :: ws) init = writeCells ws (init.set w.1 w.2) := rfl

theorem getD_writeCells_not_mem {α : Type} (d : α) :
    ∀ (ws : List (Nat × α)) (init : List α) (i : Nat),
      i ∉ ws.map Prod.fst → (writeCells ws init).getD i d = init.getD i d
  | [], _, _, _ => rfl
  | w :: ws, init, i, h => by
    have h1 : i ∉ ws.map Prod.fst := fun hm => h (by simp [hm])
    have h2 : w.1 ≠ i := fun he => h (by simp [he])
    rw [writeCells_cons, getD_writeCells_not_mem d ws _ i h1, getD_set_ne d init _ _ _ h2]

theorem getD_writeCells_mem_nodup {α : Type} (d : α) :
    ∀ (ws : List (Nat × α)) (init : List α) (i : Nat) (v : α),
      (ws.map Prod.fst).Nodup → (i, v) ∈ ws → i < init.length →
      (writeCells ws init).getD i d = v
  | [], _, _, _, _, hm, _ => by simp at hm
  | w :: ws, init, i, v, hnd, hm, hlen => by
    rw [writeCells_cons]
    rw [List.map_cons] at hnd
    have hnd' := List.nodup_cons.mp hnd
    rcases List.mem_cons.mp hm with he | ht
    · have hw1 : w.1 = i := by rw [← he]
      have hni : i ∉ ws.map Prod.fst := by
        have := hnd'.1
        rwa [hw1] at this
      rw [getD_writeCells_not_mem d ws _ i hni, hw1]
      have hwv : w = (i, v) := by rw [← he]
      rw [hwv]
      exact getD_set_self d init i v hlen
    · exact getD_writeCells_mem_nodup d ws _ i v hnd'.2 ht (by simpa using hlen)

/-! ### Lemmas about `gridCoords` and row-major indices -/

theorem mem_gridCoords {w h : Nat} {c : Nat × Nat} :
    c ∈ gridCoords w h ↔ c.1 < w ∧ c.2 < h := by
  obtain ⟨a, b⟩ := c
  simp [gridCoords, List.mem_flatMap, List.mem_map, List.mem_range]

theorem nodup_gridCoords (w h : Nat) : (gridCoords w h).Nodup := by
  rw [gridCoords, List.nodup_flatMap]
  constructor
  · intro x _
    exact (List.nodup_range h).map (fun _ _ hab => by simpa using hab)
  · have hpw : (List.range w).Pairwise (· ≠ ·) := List.nodup_range w
    refine hpw.imp ?_
    intro a b hab c hc1 hc2
    simp only [List.mem_map, List.mem_range] at hc1 hc2
    obtain ⟨b1, _, h1⟩ := hc1
    obtain ⟨b2, _, h2⟩ := hc2
    rw [← h1] at h2
    exact hab ((Prod.mk.injEq _ _ _ _).mp h2).1.symm

theorem key_inj {s u₁ u₂ v₁ v₂ : Nat} (h₁ : u₁ < s) (h₂ : u₂ < s)
    (heq : u₁ + v₁ * s = u₂ + v₂ * s) : u₁ = u₂ ∧ v₁ = v₂ := by
  have hm : u₁ = u₂ := by
    have e1 : (u₁ + v₁ * s) % s = u₁ := by
      rw [Nat.add_mul_mod_self_right, Nat.mod_eq_of_lt h₁]
    have e2 : (u₂ + v₂ * s) % s = u₂ := by
      rw [Nat.add_mul_mod_self_right, Nat.mod_eq_of_lt h₂]
    rw [← e1, ← e2, heq]
  refine ⟨hm, ?_⟩
  have hs : 0 < s := Nat.lt_of_le_of_lt (Nat.zero_le _) h₁
  have : v₁ * s = v₂ * s := by omega
  exact Nat.eq_of_mul_eq_mul_right hs this

theorem idx_lt {x y w h : Nat} (hx : x < w) (hy : y < h) : x + y * w < w * h := by
  have h1 : x + y * w < w + y * w := by omega
  have h2 : w + y * w = w * (y + 1) := by ring
  have h3 : w * (y + 1) ≤ w * h := Nat.mul_le_mul_left w (by omega)
  omega

theorem key_mod {x w : Nat} (y : Nat) (hx : x < w) : (x + y * w) % w = x := by
  rw [Nat.add_mul_mod_self_right, Nat.mod_eq_of_lt hx]

theorem key_div {x w : Nat} (y : Nat) (hx : x < w) : (x + y * w) / w = y := by
  have hw : 0 < w := Nat.lt_of_le_of_lt (Nat.zero_le _) hx
  rw [Nat.add_mul_div_right _ _ hw, Nat.div_eq_of_lt hx]
  omega

theorem idx_decomp {i w h : Nat} (hi : i < w * h) :
    i % w < w ∧ i / w < h ∧ i % w + i / w * w = i := by
  have hw : 0 < w := by
    rcases Nat.eq_zero_or_pos w with h0 | h0
    · subst h0; simp at hi
    · exact h0
  refine ⟨Nat.mod_lt i hw, ?_, Nat.mod_add_div' i w⟩
  rw [Nat.div_lt_iff_lt_mul hw, Nat.mul_comm]
  exact hi

/-- The write keys of a grid-shaped loop with offsets `(a, b)` and stride
`s ≥ a + W` are pairwise distinct. -/
theorem nodup_gridKeys (a b W H s : Nat) (hWs : a + W ≤ s) :
    ((gridCoords W H).map (fun c => (a + c.1) + (b + c.2) * s)).Nodup := by
  refine List.Nodup.map_on ?_ (nodup_gridCoords W H)
  intro c₁ h₁ c₂ h₂ heq
  obtain ⟨x₁, y₁⟩ := c₁
  obtain ⟨x₂, y₂⟩ := c₂
  obtain ⟨hx₁, hy₁⟩ := mem_gridCoords.mp h₁
  obtain ⟨hx₂, hy₂⟩ := mem_gridCoords.mp h₂
  dsimp only at hx₁ hy₁ hx₂ hy₂ heq
  have hu₁ : a + x₁ < s := by omega
  have hu₂ : a + x₂ < s := by omega
  obtain ⟨e1, e2⟩ := key_inj hu₁ hu₂ heq
  simp only [Prod.mk.injEq]
  omega

/-- Specialisation of `nodup_gridKeys` to zero offsets, in the exact key
shape the piece transformations use. -/
theorem nodup_gridKeys0 (W H s : Nat) (hWs : W ≤ s) :
    ((gridCoords W H).map (fun c => c.1 + c.2 * s)).Nodup := by
  have h := nodup_gridKeys 0 0 W H s (by omega)
  have he : (fun (c : Nat × Nat) => (0 + c.1) + (0 + c.2) * s) =
      (fun (c : Nat × Nat) => c.1 + c.2 * s) := by
    funext c; simp
  rwa [he] at h

/-! ### Characterisation of the piece transformations -/

theorem fh_width (p : Piece) : p.flipped_horizontally.width = p.width := rfl

theorem fh_height (p : Piece) : p.flipped_horizontally.height = p.height := rfl

theorem fh_id (p : Piece) : p.flipped_horizontally.id = p.id := rfl

theorem fv_width (p : Piece) : p.flipped_vertically.width = p.width := rfl

theorem fv_height (p : Piece) : p.flipped_vertically.height = p.height := rfl

theorem fv_id (p : Piece) : p.flipped_vertically.id = p.id := rfl

theorem t_width (p : Piece) : p.transposed.width = p.height := rfl

theorem t_height (p : Piece) : p.transposed.height = p.width := rfl

theorem t_id (p : Piece) : p.transposed.id = p.id := rfl

theorem length_fh (p : Piece) : p.flipped_horizontally.field.length = p.field.length :=
  length_writeCells _ _

theorem length_fv (p : Piece) : p.flipped_vertically.field.length = p.field.length :=
  length_writeCells _ _

theorem length_t (p : Piece) : p.transposed.field.length = p.width * p.height :=
  (length_writeCells _ _).trans (List.length_replicate _ _)

theorem wf_fh {p : Piece} (wf : p.WF) : p.flipped_horizontally.WF := by
  rw [Piece.WF, length_fh, fh_width, fh_height]
  exact wf

theorem wf_fv {p : Piece} (wf : p.WF) : p.flipped_vertically.WF := by
  rw [Piece.WF, length_fv, fv_width, fv_height]
  exact wf

theorem wf_t (p : Piece) : p.transposed.WF := by
  rw [Piece.WF, length_t, t_width, t_height, Nat.mul_comm]

theorem flipped_horizontally_getD (p : Piece) (wf : p.WF) (x y : Nat)
    (hx : x < p.width) (hy : y < p.height) :
    p.flipped_horizontally.field.getD (x + y * p.width) PieceState.Free
      = p.field.getD (x + (p.height - y - 1) * p.width) PieceState.Free := by
  apply getD_writeCells_mem_nodup
  · rw [List.map_map]
    exact nodup_gridKeys0 p.width p.height p.width (Nat.le_refl _)
  · exact List.mem_map.mpr ⟨(x, y), mem_gridCoords.mpr ⟨hx, hy⟩, rfl⟩
  · rw [wf]
    exact idx_lt hx hy

theorem flipped_vertically_getD (p : Piece) (wf : p.WF) (x y : Nat)
    (hx : x < p.width) (hy : y < p.height) :
    p.flipped_vertically.field.getD (x + y * p.width) PieceState.Free
      = p.field.getD ((p.width - x - 1) + y * p.width) PieceState.Free := by
  apply getD_writeCells_mem_nodup
  · rw [List.map_map]
    exact nodup_gridKeys0 p.width p.height p.width (Nat.le_refl _)
  · exact List.mem_map.mpr ⟨(x, y), mem_gridCoords.mpr ⟨hx, hy⟩, rfl⟩
  · rw [wf]
    exact idx_lt hx hy

theorem transposed_getD (p : Piece) (x y : Nat)
    (hx : x < p.height) (hy : y < p.width) :
    p.transposed.field.getD (x + y * p.height) PieceState.Free
      = p.field.getD (y + x * p.width) PieceState.Free := by
  apply getD_writeCells_mem_nodup
  · rw [List.map_map]
    exact nodup_gridKeys0 p.height p.width p.height (Nat.le_refl _)
  · exact List.mem_map.mpr ⟨(x, y), mem_gridCoords.mpr ⟨hx, hy⟩, rfl⟩
  · rw [List.length_replicate]
    exact (idx_lt hx hy).trans_eq (Nat.mul_comm _ _)

/-- Two pieces with equal identifiers, equal bounding boxes, cell vectors of
the exact grid length and pointwise equal cells are equal. -/
theorem piece_ext (p q : Piece) (hid : p.id = q.id) (hw : p.width = q.width)
    (hh : p.height = q.height) (hlp : p.field.length = p.width * p.height)
    (hlq : q.field.length = p.width * p.height)
    (hpt : ∀ x, x < p.width → ∀ y, y < p.height →
      p.field.getD (x + y * p.width) PieceState.Free
        = q.field.getD (x + y * p.width) PieceState.Free) :
    p = q := by
  have hf : p.field = q.field := by
    refine list_ext_getD PieceState.Free _ _ (by rw [hlp, hlq]) ?_
    intro i hi
    have hi' : i < p.width * p.height := by rw [← hlp]; exact hi
    obtain ⟨hx, hy, hxy⟩ := idx_decomp hi'
    have hp := hpt (i % p.width) hx (i / p.width) hy
    rwa [hxy] at hp
  obtain ⟨i1, w1, h1, f1⟩ := p
  obtain ⟨i2, w2, h2, f2⟩ := q
  dsimp only at hid hw hh hf
  rw [hid, hw, hh, hf]

/-! ### The dihedral relations between the three transformations -/

theorem fh_fh (p : Piece) (wf : p.WF) :
    p.flipped_horizontally.flipped_horizontally = p := by
  refine piece_ext _ _ rfl rfl rfl (by rw [length_fh, length_fh]; exact wf) wf ?_
  intro x hx y hy
  have hx' : x < p.width := hx
  have hy' : y < p.height := hy
  have h1 := flipped_horizontally_getD p.flipped_horizontally (wf_fh wf) x y hx' hy'
  have h2 := flipped_horizontally_getD p wf x (p.height - y - 1) hx' (by omega)
  have h3 : p.height - (p.height - y - 1) - 1 = y := by omega
  rw [h3] at h2
  exact h1.trans h2

theorem fv_fv (p : Piece) (wf : p.WF) :
    p.flipped_vertically.flipped_vertically = p := by
  refine piece_ext _ _ rfl rfl rfl (by rw [length_fv, length_fv]; exact wf) wf ?_
  intro x hx y hy
  have hx' : x < p.width := hx
  have hy' : y < p.height := hy
  have h1 := flipped_vertically_getD p.flipped_vertically (wf_fv wf) x y hx' hy'
  have h2 := flipped_vertically_getD p wf (p.width - x - 1) y (by omega) hy'
  have h3 : p.width - (p.width - x - 1) - 1 = x := by omega
  rw [h3] at h2
  exact h1.trans h2

theorem t_t (p : Piece) (wf : p.WF) : p.transposed.transposed = p := by
  refine piece_ext _ _ rfl rfl rfl
    (by rw [length_t]; exact Nat.mul_comm p.transposed.width p.transposed.height) wf ?_
  intro x hx y hy
  have hx' : x < p.width := hx
  have hy' : y < p.height := hy
  have h1 := transposed_getD p.transposed x y hx' hy'
  have h2 := transposed_getD p y x hy' hx'
  exact h1.trans h2

theorem fh_fv (p : Piece) (wf : p.WF) :
    p.flipped_vertically.flipped_horizontally
      = p.flipped_horizontally.flipped_vertically := by
  refine piece_ext _ _ rfl rfl rfl (by rw [length_fh, length_fv]; exact wf)
    (by rw [length_fv, length_fh]; exact wf) ?_
  intro x hx y hy
  have hx' : x < p.width := hx
  have hy' : y < p.height := hy
  have h1 := flipped_horizontally_getD p.flipped_vertically (wf_fv wf) x y hx' hy'
  have h2 := flipped_vertically_getD p wf x (p.height - y - 1) hx' (by omega)
  have h3 := flipped_vertically_getD p.flipped_horizontally (wf_fh wf) x y hx' hy'
  have h4 := flipped_horizontally_getD p wf (p.width - x - 1) y (by omega) hy'
  exact (h1.trans h2).trans ((h3.trans h4)).symm

theorem t_fh (p : Piece) (wf : p.WF) :
    p.flipped_horizontally.transposed = p.transposed.flipped_vertically := by
  refine piece_ext _ _ rfl rfl rfl
    (by rw [length_t]; exact Nat.mul_comm p.flipped_horizontally.width p.flipped_horizontally.height)
    (by rw [length_fv, length_t]; exact Nat.mul_comm p.width p.height) ?_
  intro x hx y hy
  have hx' : x < p.height := hx
  have hy' : y < p.width := hy
  have h1 := transposed_getD p.flipped_horizontally x y hx' hy'
  have h2 := flipped_horizontally_getD p wf y x hy' hx'
  have h3 := flipped_vertically_getD p.transposed (wf_t p) x y hx' hy'
  have h4 := transposed_getD p (p.height - x - 1) y (by omega) hy'
  exact (h1.trans h2).trans ((h3.trans h4)).symm

theorem t_fv (p : Piece) (wf : p.WF) :
    p.flipped_vertically.transposed = p.transposed.flipped_horizontally := by
  refine piece_ext _ _ rfl rfl rfl
    (by rw [length_t]; exact Nat.mul_comm p.flipped_vertically.width p.flipped_vertically.height)
    (by rw [length_fh, length_t]; exact Nat.mul_comm p.width p.height) ?_
  intro x hx y hy
  have hx' : x < p.height := hx
  have hy' : y < p.width := hy
  have h1 := transposed_getD p.flipped_vertically x y hx' hy'
  have h2 := flipped_vertically_getD p wf y x hy' hx'
  have h3 := flipped_horizontally_getD p.transposed (wf_t p) x y hx' hy'
  have h4 := transposed_getD p x (p.width - y - 1) hx' (by omega)
  exact (h1.trans h2).trans ((h3.trans h4)).symm

/-! ### The transformations preserve the number of occupied cells -/

theorem countP_eq_sum {α : Type} (pred : α → Bool) (d : α) :
    ∀ l : List α,
      l.countP pred = ∑ i ∈ Finset.range l.length, (if pred (l.getD i d) then 1 else 0)
  | [] => by simp
  | a :: l => by
    rw [List.countP_cons, List.length_cons, Finset.sum_range_succ']
    simp only [List.getD_cons_succ, List.getD_cons_zero]
    rw [countP_eq_sum pred d l]

theorem idx_decomp' {i w h : Nat} (hi : i < w * h) :
    i % h < h ∧ i / h < w ∧ i % h + i / h * h = i :=
  idx_decomp (hi.trans_eq (Nat.mul_comm w h))

theorem rev_lt {q h : Nat} (hq : q < h) : h - q - 1 < h := by omega

theorem rev_rev {q h : Nat} (hq : q < h) : h - (h - q - 1) - 1 = q := by omega

theorem occCount_fh (p : Piece) (wf : p.WF) :
    occCount p.flipped_horizontally = occCount p := by
  unfold occCount
  rw [countP_eq_sum _ PieceState.Free, countP_eq_sum _ PieceState.Free, length_fh, wf]
  refine Finset.sum_nbij'
    (fun i => i % p.width + (p.height - i / p.width - 1) * p.width)
    (fun i => i % p.width + (p.height - i / p.width - 1) * p.width)
    ?_ ?_ ?_ ?_ ?_
  · intro a ha
    obtain ⟨hx, hy, _⟩ := idx_decomp (List.mem_range.mp ha)
    exact List.mem_range.mpr (idx_lt hx (rev_lt hy))
  · intro a ha
    obtain ⟨hx, hy, _⟩ := idx_decomp (List.mem_range.mp ha)
    exact List.mem_range.mpr (idx_lt hx (rev_lt hy))
  · intro a ha
    obtain ⟨hx, hy, hxy⟩ := idx_decomp (List.mem_range.mp ha)
    simp only
    rw [key_mod _ hx, key_div _ hx, rev_rev hy, hxy]
  · intro a ha
    obtain ⟨hx, hy, hxy⟩ := idx_decomp (List.mem_range.mp ha)
    simp only
    rw [key_mod _ hx, key_div _ hx, rev_rev hy, hxy]
  · intro a ha
    obtain ⟨hx, hy, hxy⟩ := idx_decomp (List.mem_range.mp ha)
    have hc := flipped_horizontally_getD p wf (a % p.width) (a / p.width) hx hy
    rw [hxy] at hc
    simp only
    rw [hc]

theorem occCount_fv (p : Piece) (wf : p.WF) :
    occCount p.flipped_vertically = occCount p := by
  unfold occCount
  rw [countP_eq_sum _ PieceState.Free, countP_eq_sum _ PieceState.Free, length_fv, wf]
  refine Finset.sum_nbij'
    (fun i => (p.width - i % p.width - 1) + (i / p.width) * p.width)
    (fun i => (p.width - i % p.width - 1) + (i / p.width) * p.width)
    ?_ ?_ ?_ ?_ ?_
  · intro a ha
    obtain ⟨hx, hy, _⟩ := idx_decomp (List.mem_range.mp ha)
    exact List.mem_range.mpr (idx_lt (rev_lt hx) hy)
  · intro a ha
    obtain ⟨hx, hy, _⟩ := idx_decomp (List.mem_range.mp ha)
    exact List.mem_range.mpr (idx_lt (rev_lt hx) hy)
  · intro a ha
    obtain ⟨hx, hy, hxy⟩ := idx_decomp (List.mem_range.mp ha)
    simp only
    rw [key_mod _ (rev_lt hx), key_div _ (rev_lt hx), rev_rev hx, hxy]
  · intro a ha
    obtain ⟨hx, hy, hxy⟩ := idx_decomp (List.mem_range.mp ha)
    simp only
    rw [key_mod _ (rev_lt hx), key_div _ (rev_lt hx), rev_rev hx, hxy]
  · intro a ha
    obtain ⟨hx, hy, hxy⟩ := idx_decomp (List.mem_range.mp ha)
    have hc := flipped_vertically_getD p wf (a % p.width) (a / p.width) hx hy
    rw [hxy] at hc
    simp only
    rw [hc]

theorem occCount_t (p : Piece) (wf : p.WF) :
    occCount p.transposed = occCount p := by
  unfold occCount
  rw [countP_eq_sum _ PieceState.Free, countP_eq_sum _ PieceState.Free, length_t, wf]
  refine Finset.sum_nbij'
    (fun i => i / p.height + (i % p.height) * p.width)
    (fun j => j / p.width + (j % p.width) * p.height)
    ?_ ?_ ?_ ?_ ?_
  · intro a ha
    obtain ⟨hx, hy, _⟩ := idx_decomp' (List.mem_range.mp ha)
    exact List.mem_range.mpr (idx_lt hy hx)
  · intro j hj
    obtain ⟨hy, hx, _⟩ := idx_decomp (List.mem_range.mp hj)
    exact List.mem_range.mpr ((idx_lt hx hy).trans_eq (Nat.mul_comm _ _))
  · intro a ha
    obtain ⟨hx, hy, hxy⟩ := idx_decomp' (List.mem_range.mp ha)
    simp only
    rw [key_mod _ hy, key_div _ hy, hxy]
  · intro j hj
    obtain ⟨hy, hx, hxy⟩ := idx_decomp (List.mem_range.mp hj)
    simp only
    rw [key_mod _ hx, key_div _ hx, hxy]
  · intro a ha
    obtain ⟨hx, hy, hxy⟩ := idx_decomp' (List.mem_range.mp ha)
    have hc := transposed_getD p (a % p.height) (a / p.height) hx hy
    rw [hxy] at hc
    simp only
    rw [hc]

/-! ### Frame characterisation of placement -/

theorem stampCells_spec (p : Piece) (fw ax ay : Nat) :
    ∀ (C : List (Nat × Nat)) (acc out : List FieldState),
      (C.map (fun c => (ax + c.1) + (ay + c.2) * fw)).Nodup →
      (∀ c ∈ C, (ax + c.1) + (ay + c.2) * fw < acc.length) →
      stampCells p fw ax ay C acc = some out →
      out.length = acc.length ∧
      (∀ c ∈ C,
        p.field.getD (c.1 + c.2 * p.width) PieceState.Free = PieceState.Occupied →
        (∃ s, acc.getD ((ax + c.1) + (ay + c.2) * fw) FieldState.Blocked
            = FieldState.Free s) ∧
        out.getD ((ax + c.1) + (ay + c.2) * fw) FieldState.Blocked
            = FieldState.Occupied p.id) ∧
      (∀ i, (∀ c ∈ C,
          p.field.getD (c.1 + c.2 * p.width) PieceState.Free = PieceState.Occupied →
          i ≠ (ax + c.1) + (ay + c.2) * fw) →
        out.getD i FieldState.Blocked = acc.getD i FieldState.Blocked) := by
  intro C
  induction C with
  | nil =>
    intro acc out _ _ heq
    have hao : acc = out := by simpa [stampCells] using heq
    subst hao
    refine ⟨rfl, ?_, fun i _ => rfl⟩
    intro c hc
    simp at hc
  | cons c C ih =>
    intro acc out hnd hb heq
    rw [List.map_cons] at hnd
    have hnd' := List.nodup_cons.mp hnd
    have hkacc : (ax + c.1) + (ay + c.2) * fw < acc.length := hb c (List.mem_cons_self c C)
    simp only [stampCells] at heq
    by_cases hocc : p.field.getD (c.1 + c.2 * p.width) PieceState.Free = PieceState.Occupied
    · rw [if_pos hocc] at heq
      cases hacc : acc.getD ((ax + c.1) + (ay + c.2) * fw) FieldState.Blocked with
      | Blocked =>
        rw [hacc] at heq
        exact Option.noConfusion heq
      | Occupied n =>
        rw [hacc] at heq
        exact Option.noConfusion heq
      | Free s =>
        rw [hacc] at heq
        have hb' : ∀ e ∈ C, (ax + e.1) + (ay + e.2) * fw
            < (acc.set ((ax + c.1) + (ay + c.2) * fw) (FieldState.Occupied p.id)).length := by
          intro e he
          rw [List.length_set]
          exact hb e (List.mem_cons_of_mem _ he)
        obtain ⟨hlen, hmem, hframe⟩ := ih
          (acc.set ((ax + c.1) + (ay + c.2) * fw) (FieldState.Occupied p.id)) out
          hnd'.2 hb' heq
        refine ⟨by rw [hlen, List.length_set], ?_, ?_⟩
        · intro e he hoe
          rcases List.mem_cons.mp he with he1 | he2
          · subst he1
            refine ⟨⟨s, hacc⟩, ?_⟩
            have hni : ∀ e2 ∈ C,
                p.field.getD (e2.1 + e2.2 * p.width) PieceState.Free = PieceState.Occupied →
                (ax + e.1) + (ay + e.2) * fw ≠ (ax + e2.1) + (ay + e2.2) * fw := by
              intro e2 he2 _ hkk
              exact hnd'.1 (by rw [hkk]; exact List.mem_map.mpr ⟨e2, he2, rfl⟩)
            have hfr := hframe ((ax + e.1) + (ay + e.2) * fw) hni
            rw [hfr]
            exact getD_set_self _ _ _ _ hkacc
          · have h2 := hmem e he2 hoe
            have hkne : (ax + c.1) + (ay + c.2) * fw ≠ (ax + e.1) + (ay + e.2) * fw := by
              intro hkk
              exact hnd'.1 (by rw [hkk]; exact List.mem_map.mpr ⟨e, he2, rfl⟩)
            have hacg : (acc.set ((ax + c.1) + (ay + c.2) * fw)
                  (FieldState.Occupied p.id)).getD ((ax + e.1) + (ay + e.2) * fw)
                  FieldState.Blocked
                = acc.getD ((ax + e.1) + (ay + e.2) * fw) FieldState.Blocked :=
              getD_set_ne _ _ _ _ _ hkne
            rw [hacg] at h2
            exact h2
        · intro i hi
          have hik : i ≠ (ax + c.1) + (ay + c.2) * fw := hi c (List.mem_cons_self c C) hocc
          have hfr := hframe i (fun e he hoe => hi e (List.mem_cons_of_mem _ he) hoe)
          rw [hfr]
          exact getD_set_ne _ _ _ _ _ (fun hh => hik hh.symm)
    · rw [if_neg hocc] at heq
      obtain ⟨hlen, hmem, hframe⟩ := ih acc out hnd'.2
        (fun e he => hb e (List.mem_cons_of_mem _ he)) heq
      refine ⟨hlen, ?_, ?_⟩
      · intro e he hoe
        rcases List.mem_cons.mp he with he1 | he2
        · subst he1
          exact absurd hoe hocc
        · exact hmem e he2 hoe
      · intro i hi
        exact hframe i (fun e he hoe => hi e (List.mem_cons_of_mem _ he) hoe)

theorem mem_anchors {f : Field} {p : Piece} {c : Nat × Nat} :
    c ∈ anchors f p ↔ c.1 < f.width - p.width + 1 ∧ c.2 < f.height - p.height + 1 := by
  obtain ⟨x, y⟩ := c
  simp only [anchors, List.mem_flatMap, List.mem_map, List.mem_range]
  constructor
  · rintro ⟨b, hb, a, ha, hab⟩
    obtain ⟨e1, e2⟩ := (Prod.mk.injEq _ _ _ _).mp hab
    subst e1
    subst e2
    exact ⟨ha, hb⟩
  · rintro ⟨h1, h2⟩
    exact ⟨y, h2, x, h1, rfl⟩

theorem place_iter_ok (f : Field) (p : Piece) (L : List Field)
    (h : place_iter f p = Except.ok L) :
    p.height ≤ f.height ∧ p.width ≤ f.width ∧
      L = (anchors f p).filterMap (fun a => tryPlace f p a.1 a.2) := by
  rw [place_iter] at h
  by_cases h1 : f.height < p.height
  · rw [if_pos h1] at h
    exact Except.noConfusion h
  · rw [if_neg h1] at h
    by_cases h2 : f.width < p.width
    · rw [if_pos h2] at h
      exact Except.noConfusion h
    · rw [if_neg h2] at h
      exact ⟨by omega, by omega, (Except.ok.inj h).symm⟩

/-- Central frame lemma: every field yielded by `place_iter F O` equals `F`
except at the cells an occupied piece cell covers at the yield's anchor, each
of which turns from `Free` into `Occupied O.id`. -/
theorem place_iter_mem (F : Field) (O : Piece) (wfF : F.WF) (wfO : O.WF)
    (L : List Field) (hL : place_iter F O = Except.ok L)
    (P : Field) (hP : P ∈ L) :
    P.width = F.width ∧ P.height = F.height ∧ P.field.length = F.field.length ∧
    ∃ ax ay, ax + O.width ≤ F.width ∧ ay + O.height ≤ F.height ∧
      (∀ px, px < O.width → ∀ py, py < O.height →
        O.field.getD (px + py * O.width) PieceState.Free = PieceState.Occupied →
        (∃ s, F.field.getD ((ax + px) + (ay + py) * F.width) FieldState.Blocked
            = FieldState.Free s) ∧
        P.field.getD ((ax + px) + (ay + py) * F.width) FieldState.Blocked
            = FieldState.Occupied O.id) ∧
      (∀ i, (∀ px, px < O.width → ∀ py, py < O.height →
          O.field.getD (px + py * O.width) PieceState.Free = PieceState.Occupied →
          i ≠ (ax + px) + (ay + py) * F.width) →
        P.field.getD i FieldState.Blocked = F.field.getD i FieldState.Blocked) := by
  obtain ⟨hh, hw, hLe⟩ := place_iter_ok F O L hL
  subst hLe
  obtain ⟨a, ha, hT⟩ := List.mem_filterMap.mp hP
  obtain ⟨hax, hay⟩ := mem_anchors.mp ha
  have hb1 : a.1 + O.width ≤ F.width := by omega
  have hb2 : a.2 + O.height ≤ F.height := by omega
  rw [tryPlace] at hT
  cases hsc : stampCells O F.width a.1 a.2 (gridCoords O.width O.height) F.field with
  | none =>
    rw [hsc] at hT
    exact Option.noConfusion hT
  | some cells =>
    rw [hsc] at hT
    have hPdef : P = { F with field := cells } := (Option.some.inj hT).symm
    have hnd : ((gridCoords O.width O.height).map
        (fun c => (a.1 + c.1) + (a.2 + c.2) * F.width)).Nodup :=
      nodup_gridKeys a.1 a.2 O.width O.height F.width hb1
    have hbnd : ∀ c ∈ gridCoords O.width O.height,
        (a.1 + c.1) + (a.2 + c.2) * F.width < F.field.length := by
      intro c hc
      obtain ⟨h1, h2⟩ := mem_gridCoords.mp hc
      rw [wfF]
      exact idx_lt (by omega) (by omega)
    obtain ⟨hlen, hmem, hframe⟩ :=
      stampCells_spec O F.width a.1 a.2 _ F.field cells hnd hbnd hsc
    subst hPdef
    refine ⟨rfl, rfl, hlen, a.1, a.2, hb1, hb2, ?_, ?_⟩
    · intro px hpx py hpy hop
      exact hmem (px, py) (mem_gridCoords.mpr ⟨hpx, hpy⟩) hop
    · intro i hi
      exact hframe i
        (fun c hc hoc => hi c.1 (mem_gridCoords.mp hc).1 c.2 (mem_gridCoords.mp hc).2 hoc)

/-! ### Characterisation of `Field::count` -/

theorem sumScores_cons (c : FieldState) (l : List FieldState) :
    sumScores (c :: l) = cellScore c + sumScores l := by
  simp [sumScores]

theorem countAux :
    ∀ (l : List FieldState) (acc : Nat), acc ≤ 255 →
      l.foldlM
        (fun acc c =>
          if acc + cellScore c ≤ 255 then Except.ok (acc + cellScore c)
          else Except.error ())
        acc
      = if acc + sumScores l ≤ 255 then Except.ok (acc + sumScores l)
        else Except.error ()
  | [], acc, hacc => by
    rw [List.foldlM_nil]
    rw [if_pos (by simp [sumScores]; omega)]
    simp [sumScores]
    rfl
  | c :: l, acc, hacc => by
    rw [List.foldlM_cons]
    by_cases h : acc + cellScore c ≤ 255
    · rw [if_pos h]
      have hbind : (Except.ok (acc + cellScore c) >>=
          fun b => l.foldlM (fun acc c =>
            if acc + cellScore c ≤ 255 then Except.ok (acc + cellScore c)
            else Except.error ()) b)
          = l.foldlM (fun acc c =>
            if acc + cellScore c ≤ 255 then Except.ok (acc + cellScore c)
            else Except.error ()) (acc + cellScore c) := rfl
      rw [hbind, countAux l (acc + cellScore c) h, sumScores_cons, ← Nat.add_assoc]
    · rw [if_neg h, sumScores_cons]
      have hbind : ((Except.error () : Except Unit Nat) >>=
          fun b => l.foldlM (fun acc c =>
            if acc + cellScore c ≤ 255 then Except.ok (acc + cellScore c)
            else Except.error ()) b)
          = Except.error () := rfl
      rw [hbind, if_neg (by omega)]

theorem count_eq (f : Field) :
    f.count = if sumScores f.field ≤ 255 then Except.ok (sumScores f.field)
      else Except.error () := by
  rw [Field.count, countAux f.field 0 (by omega)]
  simp

/-! ### Placement never increases the residual score -/

theorem sumScores_le_of_pointwise :
    ∀ (l₁ l₂ : List FieldState), l₁.length = l₂.length →
      (∀ i, i < l₂.length →
        cellScore (l₁.getD i FieldState.Blocked) ≤ cellScore (l₂.getD i FieldState.Blocked)) →
      sumScores l₁ ≤ sumScores l₂
  | [], [], _, _ => Nat.le_refl _
  | [], _ :: _, h, _ => by simp at h
  | _ :: _, [], h, _ => by simp at h
  | a :: l₁, b :: l₂, h, hpt => by
    have h0 := hpt 0 (by simp)
    simp only [List.getD_cons_zero] at h0
    have hr := sumScores_le_of_pointwise l₁ l₂ (by simpa using h)
      (fun i hi => by simpa using hpt (i + 1) (by simpa using hi))
    rw [sumScores_cons, sumScores_cons]
    omega

theorem place_iter_sum_le (F : Field) (O : Piece) (wfF : F.WF) (wfO : O.WF)
    (L : List Field) (hL : place_iter F O = Except.ok L)
    (P : Field) (hP : P ∈ L) : sumScores P.field ≤ sumScores F.field := by
  obtain ⟨hwid, hhei, hlen, ax, ay, hb1, hb2, hmem, hframe⟩ :=
    place_iter_mem F O wfF wfO L hL P hP
  refine sumScores_le_of_pointwise P.field F.field hlen ?_
  intro i hi
  by_cases hcov : ∃ px, px < O.width ∧ ∃ py, py < O.height ∧
      O.field.getD (px + py * O.width) PieceState.Free = PieceState.Occupied ∧
      i = (ax + px) + (ay + py) * F.width
  · obtain ⟨px, hpx, py, hpy, hop, hie⟩ := hcov
    subst hie
    have h2 := (hmem px hpx py hpy hop).2
    rw [h2]
    simp [cellScore]
  · have hfr := hframe i
      (fun px hpx py hpy hop hie => hcov ⟨px, hpx, py, hpy, hop, hie⟩)
    rw [hfr]

/-! ### Solver support lemmas -/

theorem solveFuel_eq_solve :
    ∀ (remaining : List (List Piece)) (fuel : Nat), remaining.length ≤ fuel →
      ∀ state, solveFuel fuel remaining state = solve remaining state
  | [], fuel, _, state => by
    cases fuel with
    | zero => rfl
    | succ n => rfl
  | top :: rest, fuel, hf, state => by
    cases fuel with
    | zero => simp at hf
    | succ n =>
      have hr : rest.length ≤ n := by
        have := List.length_cons top rest ▸ hf
        omega
      have ih : solveFuel n rest = solve rest :=
        funext (fun st => solveFuel_eq_solve rest n hr st)
      show solveBody (solveFuel n rest) rest.isEmpty top state
        = solveBody (solve rest) rest.isEmpty top state
      rw [ih]

theorem mapM_ok_forall₂ {α β : Type} (g : α → Except Unit β) :
    ∀ (l : List α) (out : List β), l.mapM g = Except.ok out →
      List.Forall₂ (fun a b => g a = Except.ok b) l out
  | [], out, h => by
    rw [List.mapM_nil] at h
    cases Except.ok.inj h
    exact List.Forall₂.nil
  | a :: l, out, h => by
    rw [List.mapM_cons] at h
    cases hga : g a with
    | error e =>
      rw [hga] at h
      exact Except.noConfusion h
    | ok b =>
      rw [hga] at h
      cases hml : l.mapM g with
      | error e =>
        rw [hml] at h
        exact Except.noConfusion h
      | ok bs =>
        rw [hml] at h
        cases Except.ok.inj h
        exact List.Forall₂.cons hga (mapM_ok_forall₂ g l bs hml)

theorem forall₂_mem_left {α β : Type} {R : α → β → Prop} {l : List α} {out : List β}
    (h : List.Forall₂ R l out) : ∀ a ∈ l, ∃ b ∈ out, R a b := by
  induction h with
  | nil =>
    intro a ha
    simp at ha
  | cons hr _ ih =>
    intro a ha
    rcases List.mem_cons.mp ha with h1 | h2
    · subst h1
      exact ⟨_, List.mem_cons_self _ _, hr⟩
    · obtain ⟨b, hb, hab⟩ := ih a h2
      exact ⟨b, List.mem_cons_of_mem _ hb, hab⟩

theorem forall₂_mem_right {α β : Type} {R : α → β → Prop} {l : List α} {out : List β}
    (h : List.Forall₂ R l out) : ∀ b ∈ out, ∃ a ∈ l, R a b := by
  induction h with
  | nil =>
    intro b hb
    simp at hb
  | cons hr _ ih =>
    intro b hb
    rcases List.mem_cons.mp hb with h1 | h2
    · subst h1
      exact ⟨_, List.mem_cons_self _ _, hr⟩
    · obtain ⟨a, ha, hab⟩ := ih b h2
      exact ⟨a, List.mem_cons_of_mem _ ha, hab⟩

theorem foldl_max_init_le : ∀ (l : List Nat) (a : Nat), a ≤ l.foldl Nat.max a
  | [], _ => Nat.le_refl _
  | b :: l, a =>
    Nat.le_trans (Nat.le_max_left a b) (foldl_max_init_le l (Nat.max a b))

theorem le_foldl_max : ∀ (l : List Nat) (a x : Nat), x ∈ l → x ≤ l.foldl Nat.max a
  | [], _, _, hx => by simp at hx
  | b :: l, a, x, hx => by
    rcases List.mem_cons.mp hx with h1 | h2
    · subst h1
      exact Nat.le_trans (Nat.le_max_right a x) (foldl_max_init_le l (Nat.max a x))
    · exact le_foldl_max l (Nat.max a b) x h2

theorem foldl_max_mem : ∀ (l : List Nat) (a : Nat),
    l.foldl Nat.max a = a ∨ l.foldl Nat.max a ∈ l
  | [], _ => Or.inl rfl
  | b :: l, a => by
    rw [List.foldl_cons]
    rcases foldl_max_mem l (Nat.max a b) with h | h
    · rw [h]
      rcases Nat.le_total a b with h1 | h1
      · have h2 : Nat.max a b = b := Nat.max_eq_right h1
        exact Or.inr (by rw [h2]; exact List.mem_cons_self _ _)
      · exact Or.inl (show Nat.max a b = a from Nat.max_eq_left h1)
    · exact Or.inr (List.mem_cons_of_mem _ h)

theorem foldl_max_attained (l : List Nat) (hne : l ≠ []) : l.foldl Nat.max 0 ∈ l := by
  rcases foldl_max_mem l 0 with h | h
  · cases l with
    | nil => exact absurd rfl hne
    | cons a l =>
      have ha : a ≤ (a :: l).foldl Nat.max 0 := le_foldl_max _ _ a (List.mem_cons_self _ _)
      rw [h] at ha
      rw [h, ← Nat.le_zero.mp ha]
      exact List.mem_cons_self _ _
  · exact h

theorem max?_getD_eq_foldl (l : List Nat) : l.max?.getD 0 = l.foldl Nat.max 0 := by
  cases l with
  | nil => rfl
  | cons a l =>
    show l.foldl Nat.max a = (a :: l).foldl Nat.max 0
    rw [List.foldl_cons]
    have hz : Nat.max 0 a = a := Nat.max_eq_right (Nat.zero_le a)
    rw [hz]

theorem filterCount_spec :
    ∀ (l : List Field) (h : Nat),
      (∀ f ∈ l, ∃ c, Field.count f = Except.ok c) →
      ∃ bs, filterCount l h = Except.ok bs ∧
        (∀ f ∈ bs, Field.count f = Except.ok h ∧ f ∈ l) ∧
        (∀ f ∈ l, Field.count f = Except.ok h → f ∈ bs)
  | [], h, _ => ⟨[], rfl, by simp, by simp⟩
  | f :: l, h, hc => by
    obtain ⟨c, hcf⟩ := hc f (List.mem_cons_self f l)
    obtain ⟨bs, hbs, h1, h2⟩ :=
      filterCount_spec l h (fun g hg => hc g (List.mem_cons_of_mem _ hg))
    refine ⟨if c = h then f :: bs else bs, ?_, ?_, ?_⟩
    · rw [filterCount, hcf, hbs]
      rfl
    · intro g hg
      by_cases hch : c = h
      · rw [if_pos hch] at hg
        rcases List.mem_cons.mp hg with h3 | h4
        · subst h3
          exact ⟨hch ▸ hcf, List.mem_cons_self _ _⟩
        · obtain ⟨ha, hb⟩ := h1 g h4
          exact ⟨ha, List.mem_cons_of_mem _ hb⟩
      · rw [if_neg hch] at hg
        obtain ⟨ha, hb⟩ := h1 g hg
        exact ⟨ha, List.mem_cons_of_mem _ hb⟩
    · intro g hg hgh
      rcases List.mem_cons.mp hg with h3 | h4
      · subst h3
        have hch : c = h := Except.ok.inj (hcf.symm.trans hgh)
        rw [if_pos hch]
        exact List.mem_cons_self _ _
      · have hmem := h2 g h4 hgh
        by_cases hch : c = h
        · rw [if_pos hch]
          exact List.mem_cons_of_mem _ hmem
        · rw [if_neg hch]
          exact hmem

theorem highest_score_ok (s : Solution) (m : Nat) (hm : s.highest_score = Except.ok m) :
    ∃ cs, s.solutions.mapM Field.count = Except.ok cs ∧ m = cs.max?.getD 0 := by
  rw [Solution.highest_score] at hm
  cases hml : s.solutions.mapM Field.count with
  | error e =>
    rw [hml] at hm
    exact Except.noConfusion hm
  | ok cs =>
    rw [hml] at hm
    exact ⟨cs, rfl, (Except.ok.inj hm).symm⟩

/-! ### Parsing support lemmas -/

theorem fillLine_keys (w row : Nat) :
    ∀ (col : Nat) (cs : List Char) (out : List (Nat × FieldState)),
      fillLine w row col cs = Except.ok out →
      ∀ e ∈ out, ∃ j, col ≤ j ∧ j < col + cs.length ∧ e.1 = row * w + j
  | _, [], out, h => by
    cases Except.ok.inj h
    intro e he
    simp at he
  | col, c :: cs, out, h => by
    rw [fillLine] at h
    cases hp : parseChar c with
    | error e =>
      rw [hp] at h
      exact Except.noConfusion h
    | ok st =>
      rw [hp] at h
      cases hr : fillLine w row (col + 1) cs with
      | error e =>
        rw [hr] at h
        exact Except.noConfusion h
      | ok rest =>
        rw [hr] at h
        cases Except.ok.inj h
        intro e he
        rcases List.mem_cons.mp he with h1 | h2
        · subst h1
          exact ⟨col, Nat.le_refl _, by simp, rfl⟩
        · obtain ⟨j, hj1, hj2, hj3⟩ := fillLine_keys w row (col + 1) cs rest hr e h2
          exact ⟨j, by omega, by simp only [List.length_cons]; omega, hj3⟩

theorem fillLines_keys (w : Nat) :
    ∀ (row : Nat) (ls : List (List Char)) (out : List (Nat × FieldState)),
      fillLines w row ls = Except.ok out →
      ∀ e ∈ out, ∃ i j, i < ls.length ∧ j < (ls.getD i []).length ∧
        e.1 = (row + i) * w + j
  | _, [], out, h => by
    cases Except.ok.inj h
    intro e he
    simp at he
  | row, line :: ls, out, h => by
    rw [fillLines] at h
    cases ha : fillLine w row 0 line with
    | error e =>
      rw [ha] at h
      exact Except.noConfusion h
    | ok a =>
      rw [ha] at h
      cases hb : fillLines w (row + 1) ls with
      | error e =>
        rw [hb] at h
        exact Except.noConfusion h
      | ok b =>
        rw [hb] at h
        cases Except.ok.inj h
        intro e he
        rcases List.mem_append.mp he with h1 | h2
        · obtain ⟨j, _, hj2, hj3⟩ := fillLine_keys w row 0 line a ha e h1
          exact ⟨0, j, by simp, by simpa using hj2, by simpa using hj3⟩
        · obtain ⟨i, j, hi, hj, he1⟩ := fillLines_keys w (row + 1) ls b hb e h2
          refine ⟨i + 1, j, by simpa using hi, by simpa using hj, ?_⟩
          rw [he1]
          congr 2
          omega

theorem maxlw_init_le :
    ∀ (ls : List (List Char)) (a : Nat), a ≤ ls.foldl (fun a b => a.max b.length) a
  | [], _ => Nat.le_refl _
  | b :: ls, a =>
    Nat.le_trans (Nat.le_max_left a b.length) (maxlw_init_le ls (Nat.max a b.length))

theorem length_le_maxlw :
    ∀ (ls : List (List Char)) (a : Nat) (line : List Char), line ∈ ls →
      line.length ≤ ls.foldl (fun a b => a.max b.length) a
  | [], _, _, hx => by simp at hx
  | b :: ls, a, line, hx => by
    rcases List.mem_cons.mp hx with h1 | h2
    · subst h1
      exact Nat.le_trans (Nat.le_max_right a line.length)
        (maxlw_init_le ls (Nat.max a line.length))
    · exact length_le_maxlw ls (Nat.max a b.length) line h2

theorem mem_le_maxLineWidth (lines : List (List Char)) (line : List Char)
    (h : line ∈ lines) : line.length ≤ maxLineWidth lines :=
  length_le_maxlw lines 0 line h

theorem getD_mem {α : Type} (d : α) :
    ∀ (l : List α) (i : Nat), i < l.length → l.getD i d ∈ l
  | [], _, h => absurd h (by simp)
  | _ :: _, 0, _ => by simp
  | a :: l, i + 1, h => by
    rw [List.getD_cons_succ]
    exact List.mem_cons_of_mem _ (getD_mem d l i (by simpa using h))

/-! ### The claims -/

/-- Claim C1: every field yielded by `place_iter(F, O)` is a copy of `F` of
the same dimensions that differs from `F` only at the cells the occupied
cells of `O` cover at the yield's anchor; each such cell turns from
`Free` into `OccupiedBy(O.id)`, and every other cell — `Blocked` cells and
the scores of untouched `Free` cells included — is unchanged.  `F` itself is
never modified: the embedding is pure and `F` appears unchanged on the
right-hand side of the frame equations. -/
theorem claim1_place_iter_frame (F : Field) (O : Piece) (wfF : F.WF) (wfO : O.WF)
    (L : List Field) (hL : place_iter F O = Except.ok L) :
    ∀ P ∈ L, P.width = F.width ∧ P.height = F.height ∧
      P.field.length = F.field.length ∧
      ∃ ax ay, ax + O.width ≤ F.width ∧ ay + O.height ≤ F.height ∧
        (∀ px, px < O.width → ∀ py, py < O.height →
          O.field.getD (px + py * O.width) PieceState.Free = PieceState.Occupied →
          (∃ s, F.field.getD ((ax + px) + (ay + py) * F.width) FieldState.Blocked
              = FieldState.Free s) ∧
          P.field.getD ((ax + px) + (ay + py) * F.width) FieldState.Blocked
              = FieldState.Occupied O.id) ∧
        (∀ i, (∀ px, px < O.width → ∀ py, py < O.height →
            O.field.getD (px + py * O.width) PieceState.Free = PieceState.Occupied →
            i ≠ (ax + px) + (ay + py) * F.width) →
          P.field.getD i FieldState.Blocked = F.field.getD i FieldState.Blocked) :=
  fun P hP => place_iter_mem F O wfF wfO L hL P hP

/-- Witness for C1 at the 2-by-2 example field and the 1-by-1 piece. -/
theorem claim1_witness :
    Field.WF exField2x2 ∧ Piece.WF exPiece1x1 ∧
    place_iter exField2x2 exPiece1x1 = Except.ok exSolutions2x2 ∧
    (∀ P ∈ exSolutions2x2, P.width = exField2x2.width ∧ P.height = exField2x2.height ∧
      P.field.length = exField2x2.field.length ∧
      ∃ ax ay, ax + exPiece1x1.width ≤ exField2x2.width ∧
        ay + exPiece1x1.height ≤ exField2x2.height ∧
        (∀ px, px < exPiece1x1.width → ∀ py, py < exPiece1x1.height →
          exPiece1x1.field.getD (px + py * exPiece1x1.width) PieceState.Free
              = PieceState.Occupied →
          (∃ s, exField2x2.field.getD ((ax + px) + (ay + py) * exField2x2.width)
              FieldState.Blocked = FieldState.Free s) ∧
          P.field.getD ((ax + px) + (ay + py) * exField2x2.width) FieldState.Blocked
              = FieldState.Occupied exPiece1x1.id) ∧
        (∀ i, (∀ px, px < exPiece1x1.width → ∀ py, py < exPiece1x1.height →
            exPiece1x1.field.getD (px + py * exPiece1x1.width) PieceState.Free
                = PieceState.Occupied →
            i ≠ (ax + px) + (ay + py) * exField2x2.width) →
          P.field.getD i FieldState.Blocked
              = exField2x2.field.getD i FieldState.Blocked)) :=
  ⟨rfl, rfl, rfl,
   claim1_place_iter_frame exField2x2 exPiece1x1 rfl rfl
     exSolutions2x2 rfl⟩

/-- Counterexample to C2 as stated: for the 1-by-1 field and a 1-by-2 piece
(taller than the field), `place_iter` does not produce the empty sequence
without error; the `usize` subtraction `field.height - piece.height` in the
iterator's bound check underflows and a debug build panics, modelled as
`Except.error ()`, and the solver run with only that piece panics likewise. -/
theorem claim2_counterexample :
    place_iter exField1x1 exPiece1x2 = Except.error () ∧
    place_iter exField1x1 exPiece1x2 ≠ Except.ok [] ∧
    solve [[exPiece1x2]] exField1x1 = Except.error () :=
  ⟨rfl, fun h => Except.noConfusion h, rfl⟩

/-- Claim C2 as amended: when the piece exceeds the field in either
dimension, `place_iter` does not yield an empty sequence — the unsigned
bound-check subtraction underflows and the program panics (an error in the
embedding) before anything is yielded. -/
theorem claim2_oversized_piece_errors (F : Field) (O : Piece)
    (h : F.width < O.width ∨ F.height < O.height) :
    place_iter F O = Except.error () := by
  rw [place_iter]
  by_cases h1 : F.height < O.height
  · rw [if_pos h1]
  · rw [if_neg h1]
    have h2 : F.width < O.width := by
      rcases h with h | h
      · exact h
      · exact absurd h h1
    rw [if_pos h2]

/-- Witness for the amended C2 at the 1-by-1 field and the 1-by-2 piece. -/
theorem claim2_witness :
    exField1x1.height < exPiece1x2.height ∧
    place_iter exField1x1 exPiece1x2 = Except.error () :=
  ⟨by decide,
   claim2_oversized_piece_errors exField1x1 exPiece1x2 (Or.inr (by decide))⟩

/-- Claim C3: on the 2-by-2 all-`Free(1)` field with the single 1-by-1 piece
of identifier 0, the solver finds exactly 4 complete configurations, each
with exactly one `OccupiedBy(0)` cell and three `Free(1)` cells;
`highest_score` is 3 and `best_solutions` contains all 4 configurations. -/
theorem claim3_two_by_two_example :
    ∃ s, Solution.new exField2x2 [exPiece1x1] = Except.ok s ∧
      s.solutions.length = 4 ∧
      (∀ f ∈ s.solutions,
        f.field.countP (fun c => decide (c = FieldState.Occupied 0)) = 1 ∧
        f.field.countP (fun c => decide (c = FieldState.Free 1)) = 3) ∧
      s.highest_score = Except.ok 3 ∧
      s.best_solutions = Except.ok s.solutions ∧
      s.solutions = exSolutions2x2 :=
  ⟨{ start := exField2x2, pieces := [[exPiece1x1]], solutions := exSolutions2x2 },
   rfl, rfl, by decide, rfl, rfl, rfl⟩

/-- Claim C4: whenever `highest_score` evaluates (to `m`), no recorded
configuration has a count above `m`; `m` is 0 when no configuration exists
and is attained by some configuration otherwise; `best_solutions` evaluates
to a list that is non-empty exactly when a configuration exists, and every
member has count `m` and is a recorded configuration. -/
theorem claim4_highest_score_best_solutions (s : Solution) (m : Nat)
    (hm : s.highest_score = Except.ok m) :
    (∀ f ∈ s.solutions, ∀ c, f.count = Except.ok c → c ≤ m) ∧
    (s.solutions = [] → m = 0) ∧
    (s.solutions ≠ [] → ∃ f ∈ s.solutions, f.count = Except.ok m) ∧
    ∃ bs, s.best_solutions = Except.ok bs ∧
      (bs ≠ [] ↔ s.solutions ≠ []) ∧
      (∀ f ∈ bs, f.count = Except.ok m ∧ f ∈ s.solutions) := by
  obtain ⟨cs, hcs, hmdef⟩ := highest_score_ok s m hm
  have hfa := mapM_ok_forall₂ Field.count s.solutions cs hcs
  have hlen := hfa.length_eq
  rw [max?_getD_eq_foldl cs] at hmdef
  have hattain : s.solutions ≠ [] → ∃ f ∈ s.solutions, f.count = Except.ok m := by
    intro hne
    have hcsne : cs ≠ [] := by
      intro h0
      rw [h0] at hlen
      simp only [List.length_nil] at hlen
      exact hne (List.eq_nil_of_length_eq_zero hlen)
    have hmem : m ∈ cs := by
      rw [hmdef]
      exact foldl_max_attained cs hcsne
    exact forall₂_mem_right hfa m hmem
  refine ⟨?_, ?_, hattain, ?_⟩
  · intro f hf c hc
    obtain ⟨b, hb, hfb⟩ := forall₂_mem_left hfa f hf
    have hcb : c = b := Except.ok.inj (hc.symm.trans hfb)
    subst hcb
    rw [hmdef]
    exact le_foldl_max cs 0 c hb
  · intro hnil
    rw [hnil] at hlen
    simp only [List.length_nil] at hlen
    have hcse : cs = [] := List.eq_nil_of_length_eq_zero hlen.symm
    rw [hcse] at hmdef
    exact hmdef
  · have hcall : ∀ f ∈ s.solutions, ∃ c, Field.count f = Except.ok c := by
      intro f hf
      obtain ⟨b, _, hfb⟩ := forall₂_mem_left hfa f hf
      exact ⟨b, hfb⟩
    obtain ⟨bs, hbs, h1, h2⟩ := filterCount_spec s.solutions m hcall
    refine ⟨bs, ?_, ⟨?_, ?_⟩, h1⟩
    · rw [Solution.best_solutions, hm]
      exact hbs
    · intro hbne hsnil
      obtain ⟨f, hf⟩ := List.exists_mem_of_ne_nil bs hbne
      have hfs := (h1 f hf).2
      rw [hsnil] at hfs
      simp at hfs
    · intro hsne
      obtain ⟨f, hf, hfm⟩ := hattain hsne
      exact List.ne_nil_of_mem (h2 f hf hfm)

/-- Witness for C4 at a concrete `Solution` record. -/
theorem claim4_witness :
    Solution.highest_score
        { start := exField2x2, pieces := [[exPiece1x1]], solutions := exSolutions2x2 }
      = Except.ok 3 ∧
    ((∀ f ∈ exSolutions2x2, ∀ c, f.count = Except.ok c → c ≤ 3) ∧
     (exSolutions2x2 = [] → 3 = 0) ∧
     (exSolutions2x2 ≠ [] → ∃ f ∈ exSolutions2x2, f.count = Except.ok 3) ∧
     ∃ bs, Solution.best_solutions
         { start := exField2x2, pieces := [[exPiece1x1]], solutions := exSolutions2x2 }
       = Except.ok bs ∧
       (bs ≠ [] ↔ exSolutions2x2 ≠ []) ∧
       (∀ f ∈ bs, f.count = Except.ok 3 ∧ f ∈ exSolutions2x2)) :=
  ⟨rfl,
   claim4_highest_score_best_solutions
     { start := exField2x2, pieces := [[exPiece1x1]], solutions := exSolutions2x2 } 3
     rfl⟩

/-- Claim C5: for a well-formed piece, `all_variants` is a set of 1 to 8
pairwise distinct pieces, each with the source's identifier, the source's
number of occupied cells, and a bounding box equal to the source's or its
transpose. -/
theorem claim5_all_variants_invariants (p : Piece) (wf : p.WF) :
    1 ≤ p.all_variants.length ∧ p.all_variants.length ≤ 8 ∧ p.all_variants.Nodup ∧
    ∀ q ∈ p.all_variants, q.id = p.id ∧ occCount q = occCount p ∧
      ((q.width = p.width ∧ q.height = p.height) ∨
       (q.width = p.height ∧ q.height = p.width)) := by
  have wt := wf_t p
  refine ⟨?_, ?_, List.nodup_dedup _, ?_⟩
  · have hp : p ∈ p.all_variants := by
      rw [Piece.all_variants, List.mem_dedup]
      simp
    exact List.length_pos.mpr (List.ne_nil_of_mem hp)
  · rw [Piece.all_variants]
    exact Nat.le_trans (List.dedup_sublist _).length_le (by simp)
  · intro q hq
    rw [Piece.all_variants, List.mem_dedup] at hq
    simp only [List.mem_cons, List.not_mem_nil, or_false] at hq
    rcases hq with h | h | h | h | h | h | h | h
    · subst h
      exact ⟨rfl, occCount_fh p wf, Or.inl ⟨rfl, rfl⟩⟩
    · subst h
      exact ⟨rfl, (occCount_fh p.flipped_vertically (wf_fv wf)).trans (occCount_fv p wf),
        Or.inl ⟨rfl, rfl⟩⟩
    · subst h
      exact ⟨rfl, occCount_fv p wf, Or.inl ⟨rfl, rfl⟩⟩
    · subst h
      exact ⟨rfl, rfl, Or.inl ⟨rfl, rfl⟩⟩
    · subst h
      exact ⟨rfl, (occCount_fh p.transposed wt).trans (occCount_t p wf),
        Or.inr ⟨rfl, rfl⟩⟩
    · subst h
      exact ⟨rfl, (occCount_fh p.transposed.flipped_vertically (wf_fv wt)).trans
        ((occCount_fv p.transposed wt).trans (occCount_t p wf)), Or.inr ⟨rfl, rfl⟩⟩
    · subst h
      exact ⟨rfl, (occCount_fv p.transposed wt).trans (occCount_t p wf),
        Or.inr ⟨rfl, rfl⟩⟩
    · subst h
      exact ⟨rfl, occCount_t p wf, Or.inr ⟨rfl, rfl⟩⟩

/-- Witness for C5 at a concrete 2-by-1 piece. -/
theorem claim5_witness :
    Piece.WF exPiece2x1 ∧
    (1 ≤ exPiece2x1.all_variants.length ∧ exPiece2x1.all_variants.length ≤ 8 ∧
     exPiece2x1.all_variants.Nodup ∧
     ∀ q ∈ exPiece2x1.all_variants, q.id = exPiece2x1.id ∧
       occCount q = occCount exPiece2x1 ∧
       ((q.width = exPiece2x1.width ∧ q.height = exPiece2x1.height) ∨
        (q.width = exPiece2x1.height ∧ q.height = exPiece2x1.width))) :=
  ⟨rfl, claim5_all_variants_invariants exPiece2x1 rfl⟩

/-- Claim C6: for a well-formed piece, `all_variants` is closed under the
three transformations: the horizontal flip, vertical flip and transpose of
any member is again a member (up to structural equality). -/
theorem claim6_all_variants_closed (p : Piece) (wf : p.WF) :
    ∀ q ∈ p.all_variants,
      q.flipped_horizontally ∈ p.all_variants ∧
      q.flipped_vertically ∈ p.all_variants ∧
      q.transposed ∈ p.all_variants := by
  have wfv := wf_fv wf
  have wt := wf_t p
  have hmem : ∀ r : Piece,
      (r = p.flipped_horizontally ∨
       r = p.flipped_vertically.flipped_horizontally ∨
       r = p.flipped_vertically ∨
       r = p ∨
       r = p.transposed.flipped_horizontally ∨
       r = p.transposed.flipped_vertically.flipped_horizontally ∨
       r = p.transposed.flipped_vertically ∨
       r = p.transposed) → r ∈ p.all_variants := by
    intro r hr
    rw [Piece.all_variants, List.mem_dedup]
    simp only [List.mem_cons, List.not_mem_nil, or_false]
    exact hr
  intro q hq
  rw [Piece.all_variants, List.mem_dedup] at hq
  simp only [List.mem_cons, List.not_mem_nil, or_false] at hq
  rcases hq with h | h | h | h | h | h | h | h
  · subst h
    refine ⟨hmem _ ?_, hmem _ ?_, hmem _ ?_⟩
    · exact Or.inr (Or.inr (Or.inr (Or.inl (fh_fh p wf))))
    · exact Or.inr (Or.inl (fh_fv p wf).symm)
    · exact Or.inr (Or.inr (Or.inr (Or.inr (Or.inr (Or.inr (Or.inl (t_fh p wf)))))))
  · subst h
    refine ⟨hmem _ ?_, hmem _ ?_, hmem _ ?_⟩
    · exact Or.inr (Or.inr (Or.inl (fh_fh p.flipped_vertically wfv)))
    · exact Or.inl ((fh_fv p.flipped_vertically wfv).symm.trans
        (congrArg Piece.flipped_horizontally (fv_fv p wf)))
    · exact Or.inr (Or.inr (Or.inr (Or.inr (Or.inr (Or.inl
        ((t_fh p.flipped_vertically wfv).trans
          ((congrArg Piece.flipped_vertically (t_fv p wf)).trans
            (fh_fv p.transposed wt).symm)))))))
  · subst h
    refine ⟨hmem _ ?_, hmem _ ?_, hmem _ ?_⟩
    · exact Or.inr (Or.inl rfl)
    · exact Or.inr (Or.inr (Or.inr (Or.inl (fv_fv p wf))))
    · exact Or.inr (Or.inr (Or.inr (Or.inr (Or.inl (t_fv p wf)))))
  · subst h
    refine ⟨hmem _ ?_, hmem _ ?_, hmem _ ?_⟩
    · exact Or.inl rfl
    · exact Or.inr (Or.inr (Or.inl rfl))
    · exact Or.inr (Or.inr (Or.inr (Or.inr (Or.inr (Or.inr (Or.inr rfl))))))
  · subst h
    refine ⟨hmem _ ?_, hmem _ ?_, hmem _ ?_⟩
    · exact Or.inr (Or.inr (Or.inr (Or.inr (Or.inr (Or.inr (Or.inr
        (fh_fh p.transposed wt)))))))
    · exact Or.inr (Or.inr (Or.inr (Or.inr (Or.inr (Or.inl
        (fh_fv p.transposed wt).symm)))))
    · exact Or.inr (Or.inr (Or.inl
        ((t_fh p.transposed wt).trans
          (congrArg Piece.flipped_vertically (t_t p wf)))))
  · subst h
    refine ⟨hmem _ ?_, hmem _ ?_, hmem _ ?_⟩
    · exact Or.inr (Or.inr (Or.inr (Or.inr (Or.inr (Or.inr (Or.inl
        (fh_fh p.transposed.flipped_vertically (wf_fv wt))))))))
    · exact Or.inr (Or.inr (Or.inr (Or.inr (Or.inl
        ((fh_fv p.transposed.flipped_vertically (wf_fv wt)).symm.trans
          (congrArg Piece.flipped_horizontally (fv_fv p.transposed wt)))))))
    · exact Or.inr (Or.inl
        ((t_fh p.transposed.flipped_vertically (wf_fv wt)).trans
          ((congrArg Piece.flipped_vertically (t_fv p.transposed wt)).trans
            ((congrArg (fun r => r.flipped_horizontally.flipped_vertically)
                (t_t p wf)).trans
              (fh_fv p wf).symm))))
  · subst h
    refine ⟨hmem _ ?_, hmem _ ?_, hmem _ ?_⟩
    · exact Or.inr (Or.inr (Or.inr (Or.inr (Or.inr (Or.inl rfl)))))
    · exact Or.inr (Or.inr (Or.inr (Or.inr (Or.inr (Or.inr (Or.inr
        (fv_fv p.transposed wt)))))))
    · exact Or.inl
        ((t_fv p.transposed wt).trans
          (congrArg Piece.flipped_horizontally (t_t p wf)))
  · subst h
    refine ⟨hmem _ ?_, hmem _ ?_, hmem _ ?_⟩
    · exact Or.inr (Or.inr (Or.inr (Or.inr (Or.inl rfl))))
    · exact Or.inr (Or.inr (Or.inr (Or.inr (Or.inr (Or.inr (Or.inl rfl))))))
    · exact Or.inr (Or.inr (Or.inr (Or.inl (t_t p wf))))

/-- Witness for C6 at a concrete 2-by-1 piece. -/
theorem claim6_witness :
    Piece.WF exPiece2x1 ∧
    (∀ q ∈ exPiece2x1.all_variants,
      q.flipped_horizontally ∈ exPiece2x1.all_variants ∧
      q.flipped_vertically ∈ exPiece2x1.all_variants ∧
      q.transposed ∈ exPiece2x1.all_variants) :=
  ⟨rfl, claim6_all_variants_closed exPiece2x1 rfl⟩

/-- Claim C7: whenever `count` evaluates on the input field (no `u8`
overflow), it also evaluates on every field yielded by `place_iter` and the
result never exceeds the input's count: placing a piece only converts `Free`
cells to `Occupied`, removing their score contribution. -/
theorem claim7_count_monotone (F : Field) (O : Piece) (wfF : F.WF) (wfO : O.WF)
    (L : List Field) (hL : place_iter F O = Except.ok L) :
    ∀ P ∈ L, ∀ n, F.count = Except.ok n →
      ∃ m, P.count = Except.ok m ∧ m ≤ n := by
  intro P hP n hn
  have hle := place_iter_sum_le F O wfF wfO L hL P hP
  rw [count_eq] at hn
  by_cases hs : sumScores F.field ≤ 255
  · rw [if_pos hs] at hn
    have hns : sumScores F.field = n := Except.ok.inj hn
    refine ⟨sumScores P.field, ?_, by omega⟩
    rw [count_eq, if_pos (by omega)]
  · rw [if_neg hs] at hn
    exact Except.noConfusion hn

/-- Witness for C7 at the 2-by-2 example. -/
theorem claim7_witness :
    Field.WF exField2x2 ∧ Piece.WF exPiece1x1 ∧
    place_iter exField2x2 exPiece1x1 = Except.ok exSolutions2x2 ∧
    (∀ P ∈ exSolutions2x2, ∀ n, exField2x2.count = Except.ok n →
      ∃ m, P.count = Except.ok m ∧ m ≤ n) :=
  ⟨rfl, rfl, rfl,
   claim7_count_monotone exField2x2 exPiece1x1 rfl rfl exSolutions2x2 rfl⟩

/-- Counterexample to C8 as stated: on a 29-cell field of `Free(9)` cells
the free scores sum to 261, the `u8` accumulator of `Field::count` overflows
(a debug build panics, modelled as an error), and `count` does not equal the
sum of the scores. -/
theorem claim8_counterexample :
    Field.count exFieldBig = Except.error () ∧
    sumScores exFieldBig.field = 261 ∧
    Field.count exFieldBig ≠ Except.ok (sumScores exFieldBig.field) :=
  ⟨rfl, rfl, fun h => Except.noConfusion h⟩

/-- Claim C8 as amended: `count` equals the sum, over every `Free(score)`
cell, of `score` — a non-negative integer — whenever that sum fits in the
`u8` accumulator (is at most 255); when the sum exceeds 255 the accumulation
overflows and the program panics (an error in the embedding). -/
theorem claim8_count_u8 (F : Field) :
    (sumScores F.field ≤ 255 → F.count = Except.ok (sumScores F.field)) ∧
    (255 < sumScores F.field → F.count = Except.error ()) := by
  constructor
  · intro h
    rw [count_eq, if_pos h]
  · intro h
    rw [count_eq, if_neg (by omega)]

/-- Witness for the amended C8 at the 2-by-2 example field. -/
theorem claim8_witness :
    sumScores exField2x2.field ≤ 255 ∧
    Field.count exField2x2 = Except.ok (sumScores exField2x2.field) :=
  ⟨by decide, (claim8_count_u8 exField2x2).1 (by decide)⟩

/-- Claim C9: the solver's recursion terminates, with depth bounded by the
number of remaining orientation sets: each recursive call consumes exactly
one element of `remaining`, so running the fuelled solver with
`remaining.length` fuel already computes the same result as the unbounded
recursion, for every input. -/
theorem claim9_solver_depth_bounded (remaining : List (List Piece)) (fuel : Nat)
    (h : remaining.length ≤ fuel) (state : Field) :
    solveFuel fuel remaining state = solve remaining state :=
  solveFuel_eq_solve remaining fuel h state

/-- Witness for C9 on the 2-by-2 example with one piece and exactly one unit
of fuel. -/
theorem claim9_witness :
    [[exPiece1x1]].length ≤ 1 ∧
    solveFuel 1 [[exPiece1x1]] exField2x2 = solve [[exPiece1x1]] exField2x2 :=
  ⟨by decide, claim9_solver_depth_bounded [[exPiece1x1]] 1 (by decide) exField2x2⟩

/-- Claim C10: every input accepted by `Field::from_str` yields a rectangular
field whose width is the longest line's length and whose height is the line
count, and every cell position of a row beyond that row's own line length is
`Blocked` (short lines are padded with `Blocked`). -/
theorem claim10_from_str_pads (s : List Char) (F : Field)
    (h : Field.fromStr s = Except.ok F) :
    F.width = maxLineWidth (splitT s) ∧
    F.height = (splitT s).length ∧
    F.WF ∧
    ∀ i, i < (splitT s).length → ∀ j, ((splitT s).getD i []).length ≤ j →
      j < F.width →
      F.field.getD (i * F.width + j) FieldState.Blocked = FieldState.Blocked := by
  rw [Field.fromStr] at h
  cases hws : fillLines (maxLineWidth (splitT s)) 0 (splitT s) with
  | error e =>
    rw [hws] at h
    exact Except.noConfusion h
  | ok ws =>
    rw [hws] at h
    have hF := Except.ok.inj h
    subst hF
    dsimp only
    refine ⟨rfl, rfl, ?_, ?_⟩
    · show (writeCells ws _).length = _
      rw [length_writeCells, List.length_replicate]
    · intro i hi j hj hjw
      have hnk : (i * maxLineWidth (splitT s) + j) ∉ ws.map Prod.fst := by
        intro hmem
        obtain ⟨e, he, hee⟩ := List.mem_map.mp hmem
        obtain ⟨i', j', hi', hj', he1⟩ :=
          fillLines_keys (maxLineWidth (splitT s)) 0 (splitT s) ws hws e he
        simp only [Nat.zero_add] at he1
        have hjw' : j' < maxLineWidth (splitT s) :=
          Nat.lt_of_lt_of_le hj'
            (mem_le_maxLineWidth _ _ (getD_mem [] _ _ hi'))
        have hkeq : j + i * maxLineWidth (splitT s)
            = j' + i' * maxLineWidth (splitT s) := by
          rw [he1] at hee
          omega
        obtain ⟨hjj, hii⟩ := key_inj hjw hjw' hkeq
        subst hjj
        subst hii
        omega
      rw [getD_writeCells_not_mem _ ws _ _ hnk]
      have hlt : i * maxLineWidth (splitT s) + j
          < maxLineWidth (splitT s) * (splitT s).length := by
        have := idx_lt hjw hi
        omega
      exact getD_replicate_self _ _ _ _ hlt

/-- Witness for C10 at the input `"- \n--9"`, where the first line is
shorter than the second and its missing cell comes out `Blocked`. -/
theorem claim10_witness :
    Field.fromStr exInputPadded = Except.ok exFieldPadded ∧
    (exFieldPadded.width = maxLineWidth (splitT exInputPadded) ∧
     exFieldPadded.height = (splitT exInputPadded).length ∧
     exFieldPadded.WF ∧
     ∀ i, i < (splitT exInputPadded).length → ∀ j,
       ((splitT exInputPadded).getD i []).length ≤ j → j < exFieldPadded.width →
       exFieldPadded.field.getD (i * exFieldPadded.width + j) FieldState.Blocked
         = FieldState.Blocked) :=
  ⟨rfl, claim10_from_str_pads exInputPadded exFieldPadded rfl⟩

end Jit
